import Mathlib

/-!
Shallow embedding of MeshMassProperties.cpp (volume, center of mass and
inertia tensor of a closed triangle mesh, unit density).  Machine scalars
(btScalar) are modelled as exact rationals; btVector3 as `Fin 3 → ℚ`
and btMatrix3x3 as `Fin 3 → Fin 3 → ℚ`.  The C++ assert statements on
triangle indices are modelled by an `Option` result (`none` = assertion
failure); everything else is a total function translated line by line.
-/

namespace MMP

/-- Model of btVector3: a 3-component vector with exact rational entries. -/
abbrev V3 : Type := Fin 3 → ℚ

/-- Model of btMatrix3x3: a 3×3 matrix with exact rational entries. -/
abbrev Mat3 : Type := Fin 3 → Fin 3 → ℚ

/-- Model of btVector3 dot product. -/
def dot (a b : V3) : ℚ := a 0 * b 0 + a 1 * b 1 + a 2 * b 2

/-- Model of btVector3 cross product. -/
def cross (a b : V3) : V3 :=
  ![a 1 * b 2 - a 2 * b 1, a 2 * b 0 - a 0 * b 2, a 0 * b 1 - a 1 * b 0]

/-- Model of btVector3 length2 (squared length). -/
def length2 (a : V3) : ℚ := dot a a

/-- Symmetry of a 3×3 matrix. -/
def Mat3.IsSymm (M : Mat3) : Prop := ∀ i j : Fin 3, M i j = M j i

/-- Embedding of computeTetrahedronVolume (MeshMassProperties.cpp:202-210):
the returned value is `((p2 - p1).cross(p3 - p2)).dot(p3 - p0) / 6`. -/
def computeTetrahedronVolume (p : Fin 4 → V3) : ℚ :=
  dot (cross (p 2 - p 1) (p 3 - p 2)) (p 3 - p 0) / 6

/-- Write a single matrix entry (models an assignment to inertia[a][b]). -/
def matSet (M : Mat3) (a b : Fin 3) (v : ℚ) : Mat3 :=
  fun x y => if x = a ∧ y = b then v else M x y

/-- One iteration of the loop in computeTetrahedronInertia
(MeshMassProperties.cpp:68-90): with j = (i+1) % 3 and k = (j+1) % 3
(realised by `Fin 3` addition), assign the diagonal entry [i][i] and the
mirrored off-diagonal entries [j][k] and [k][j]. -/
def tetrahedronInertiaStep (mass : ℚ) (p : Fin 4 → V3) (M : Mat3) (i : Fin 3) : Mat3 :=
  let j : Fin 3 := i + 1
  let k : Fin 3 := j + 1
  let diag : ℚ := mass * (1/10) *
      ( p 0 j * (p 0 j + p 1 j + p 2 j + p 3 j)
      + p 1 j * (p 1 j + p 2 j + p 3 j)
      + p 2 j * (p 2 j + p 3 j)
      + p 3 j * p 3 j
      + p 0 k * (p 0 k + p 1 k + p 2 k + p 3 k)
      + p 1 k * (p 1 k + p 2 k + p 3 k)
      + p 2 k * (p 2 k + p 3 k)
      + p 3 k * p 3 k )
  let offDiagonal : ℚ := - (mass * (1/20)) *
      ( 2 * ( p 0 j * p 0 k + p 1 j * p 1 k + p 2 j * p 2 k + p 3 j * p 3 k )
      + p 0 j * (p 1 k + p 2 k + p 3 k)
      + p 1 j * (p 0 k + p 2 k + p 3 k)
      + p 2 j * (p 0 k + p 1 k + p 3 k)
      + p 3 j * (p 0 k + p 1 k + p 2 k) )
  matSet (matSet (matSet M i i diag) j k offDiagonal) k j offDiagonal

/-- Embedding of computeTetrahedronInertia (MeshMassProperties.cpp:39-91):
the loop for i = 0,1,2 of `tetrahedronInertiaStep`; the three iterations
write all nine entries, so the initial matrix contents are irrelevant (the
C++ takes an uninitialised output parameter). -/
def computeTetrahedronInertia (mass : ℚ) (p : Fin 4 → V3) : Mat3 :=
  tetrahedronInertiaStep mass p
    (tetrahedronInertiaStep mass p
      (tetrahedronInertiaStep mass p (fun _ _ => 0) 0) 1) 2

/-- Embedding of applyParallelAxisTheorem (MeshMassProperties.cpp:212-233).
The C++ loop updates, when `distanceSquared > 0`, the diagonal entries by
`+ mass*(d2 - shift_i^2)` and each off-diagonal pair [i][j], [j][i]
(for j > i) by `- mass*shift_i*shift_j`; entrywise this is the function
below (for a ≠ b the C++ update uses the smaller index first, which equals
the form below by commutativity of multiplication). -/
def applyParallelAxisTheorem (inertia : Mat3) (shift : V3) (mass : ℚ) : Mat3 :=
  if length2 shift > 0 then
    fun a b =>
      if a = b then inertia a a + mass * (length2 shift - shift a * shift a)
      else inertia a b - mass * shift a * shift b
  else inertia

/-- Embedding of applyInverseParallelAxisTheorem
(MeshMassProperties.cpp:236-257): the same updates with opposite signs. -/
def applyInverseParallelAxisTheorem (inertia : Mat3) (shift : V3) (mass : ℚ) : Mat3 :=
  if length2 shift > 0 then
    fun a b =>
      if a = b then inertia a a - mass * (length2 shift - shift a * shift a)
      else inertia a b + mass * shift a * shift b
  else inertia

/-- The per-tetrahedron center used by computeMassProperties
(MeshMassProperties.cpp:307): `center = 0.25 * (p1 + p2 + p3)` where the
tetrahedron is (origin, p1, p2, p3). -/
def tetraCenter (q1 q2 q3 : V3) : V3 := (1/4 : ℚ) • (q1 + q2 + q3)

/-- The result record of MeshMassProperties: m_volume, m_centerOfMass,
m_inertia. -/
structure MassProps where
  volume : ℚ
  centerOfMass : V3
  inertia : Mat3
deriving DecidableEq

/-- The running totals of the loop in computeMassProperties:
(m_volume, weightedCenter, m_inertia). -/
abbrev AccumState : Type := ℚ × V3 × Mat3

/-- Body of the triangle loop in computeMassProperties
(MeshMassProperties.cpp:290-323).  The three asserts on the triangle
indices are modelled by the bounds test (`none` = assertion failure). -/
def processTriangle (points : List V3) (st : AccumState) (t : ℕ × ℕ × ℕ) :
    Option AccumState :=
  if t.1 < points.length ∧ t.2.1 < points.length ∧ t.2.2 < points.length then
    let q1 := points.getD t.1 0
    let q2 := points.getD t.2.1 0
    let q3 := points.getD t.2.2 0
    let tetra : Fin 4 → V3 := ![0, q1, q2, q3]
    let volume := computeTetrahedronVolume tetra
    let center := tetraCenter q1 q2 q3
    let shifted : Fin 4 → V3 := fun n => tetra n - center
    let tetraInertia :=
      applyParallelAxisTheorem (computeTetrahedronInertia volume shifted) center volume
    some (st.1 + volume, st.2.1 + volume • center, st.2.2 + tetraInertia)
  else none

/-- Group a flat index list into consecutive triples, dropping the trailing
one or two indices, exactly as `numTriangles = triangleIndices.size() / 3`
(MeshMassProperties.cpp:289) does. -/
def triples : List ℕ → List (ℕ × ℕ × ℕ)
  | a :: b :: c :: rest => (a, b, c) :: triples rest
  | _ => []

/-- Embedding of MeshMassProperties::computeMassProperties
(MeshMassProperties.cpp:263-328): fold the triangle loop over the index
triples starting from zero totals, then divide the weighted center by the
total volume and shift the accumulated inertia to the center of mass. -/
def computeMassProperties (points : List V3) (triangleIndices : List ℕ) :
    Option MassProps := do
  let st ← (triples triangleIndices).foldlM (processTriangle points) (0, 0, 0)
  let com : V3 := fun m => st.2.1 m / st.1
  some ⟨st.1, com, applyInverseParallelAxisTheorem st.2.2 com st.1⟩

/-- The eight vertices of the unit cube (spec §8 concrete scenario). -/
def cubePoints : List V3 :=
  [ ![-(1/2), -(1/2), -(1/2)], ![1/2, -(1/2), -(1/2)],
    ![1/2, 1/2, -(1/2)], ![-(1/2), 1/2, -(1/2)],
    ![-(1/2), -(1/2), 1/2], ![1/2, -(1/2), 1/2],
    ![1/2, 1/2, 1/2], ![-(1/2), 1/2, 1/2] ]

/-- Twelve outward-wound triangles covering the unit cube's surface. -/
def cubeTriangles : List ℕ :=
  [0, 2, 1, 0, 3, 2, 4, 5, 6, 4, 6, 7, 0, 1, 5, 0, 5, 4,
   2, 7, 6, 2, 3, 7, 1, 2, 6, 1, 6, 5, 0, 4, 7, 0, 7, 3]

/-- Expected mass properties of the unit cube: volume 1, center of mass at
the origin, inertia diag(1/6, 1/6, 1/6). -/
def cubeProps : MassProps :=
  ⟨1, 0, fun a b => if a = b then 1/6 else 0⟩

/-! ## Basic lemmas about the leaf routines -/

/-- A rational vector with vanishing squared length is the zero vector. -/
lemma length2_eq_zero {v : V3} (h : ¬ length2 v > 0) : v = 0 := by
  simp only [length2, dot, not_lt] at h
  have h0 : v 0 = 0 ∧ v 1 = 0 ∧ v 2 = 0 := by
    refine ⟨?_, ?_, ?_⟩ <;> nlinarith [sq_nonneg (v 0), sq_nonneg (v 1), sq_nonneg (v 2)]
  funext i
  fin_cases i <;> simp [h0.1, h0.2.1, h0.2.2]

/-- The guard `distanceSquared > 0` in applyParallelAxisTheorem is
redundant over exact arithmetic: the update is identically zero at a zero
shift, so the guarded function agrees everywhere with the unguarded
entrywise form. -/
lemma applyParallelAxisTheorem_eq (I : Mat3) (s : V3) (m : ℚ) :
    applyParallelAxisTheorem I s m = fun a b =>
      if a = b then I a a + m * (length2 s - s a * s a)
      else I a b - m * s a * s b := by
  unfold applyParallelAxisTheorem
  split
  · rfl
  · rename_i h
    have hs : s = 0 := length2_eq_zero h
    subst hs
    funext a b
    by_cases hab : a = b <;> simp [hab, length2, dot]

/-- Unguarded entrywise form of applyInverseParallelAxisTheorem. -/
lemma applyInverseParallelAxisTheorem_eq (I : Mat3) (s : V3) (m : ℚ) :
    applyInverseParallelAxisTheorem I s m = fun a b =>
      if a = b then I a a - m * (length2 s - s a * s a)
      else I a b + m * s a * s b := by
  unfold applyInverseParallelAxisTheorem
  split
  · rfl
  · rename_i h
    have hs : s = 0 := length2_eq_zero h
    subst hs
    funext a b
    by_cases hab : a = b <;> simp [hab, length2, dot]

/-! ## Closed forms for the per-triangle contributions

For a triangle (a, b, c) the loop body of computeMassProperties adds the
signed tetrahedron volume det(a,b,c)/6, the volume-weighted tetrahedron
center, and the tetrahedron's inertia about the mesh origin.  The latter
equals trace(C)·E − C where C is the classical second-moment matrix of the
tetrahedron (0, a, b, c), C = det(a,b,c)/120 · (aaᵀ + bbᵀ + ccᵀ + ssᵀ)
with s = a + b + c; this is proved below from Tonon's formulas. -/

/-- Signed volume contribution of triangle (a, b, c). -/
def triVol (a b c : V3) : ℚ := dot a (cross b c) / 6

/-- Entry (i, j) of the second-moment matrix of tetrahedron (0, a, b, c). -/
def secondMoment (a b c : V3) (i j : Fin 3) : ℚ :=
  (dot a (cross b c) / 120) *
    (a i * a j + b i * b j + c i * c j + (a i + b i + c i) * (a j + b j + c j))

/-- Inertia of tetrahedron (0, a, b, c) about the mesh origin:
trace(C)·E − C for the second-moment matrix C. -/
def triInertia (a b c : V3) : Mat3 := fun i j =>
  (if i = j then secondMoment a b c 0 0 + secondMoment a b c 1 1 + secondMoment a b c 2 2
   else 0) - secondMoment a b c i j

/-- The volume computed for a triangle's tetrahedron equals the triple
product det(a,b,c)/6. -/
lemma computeTetrahedronVolume_cons (a b c : V3) :
    computeTetrahedronVolume ![0, a, b, c] = triVol a b c := by
  simp only [computeTetrahedronVolume, triVol, dot, cross]
  simp
  ring

set_option maxHeartbeats 2000000 in
/-- Tonon's closed-form tetrahedron inertia, evaluated on the
centroid-shifted tetrahedron and shifted back to the origin by the
parallel-axis theorem, equals trace(C)·E − C for the second-moment matrix
C of the tetrahedron (0, a, b, c). -/
lemma tetraInertia_originFrame (a b c : V3) :
    applyParallelAxisTheorem
      (computeTetrahedronInertia (computeTetrahedronVolume ![0, a, b, c])
        (fun n => (![0, a, b, c] : Fin 4 → V3) n - tetraCenter a b c))
      (tetraCenter a b c) (computeTetrahedronVolume ![0, a, b, c])
    = triInertia a b c := by
  rw [applyParallelAxisTheorem_eq]
  funext i j
  fin_cases i <;> fin_cases j <;>
    simp [computeTetrahedronInertia, tetrahedronInertiaStep, matSet,
      computeTetrahedronVolume, tetraCenter, cross, dot, length2,
      triInertia, secondMoment] <;> ring

/-! ## From the fold to explicit list sums -/

/-- Fetch the three vertex positions named by an index triple. -/
def fetch (points : List V3) (t : ℕ × ℕ × ℕ) : V3 × V3 × V3 :=
  (points.getD t.1 0, points.getD t.2.1 0, points.getD t.2.2 0)

/-- All indices of all triples are within the vertex buffer (the caller
contract checked by the asserts). -/
def InBounds (points : List V3) (ts : List (ℕ × ℕ × ℕ)) : Prop :=
  ∀ t ∈ ts, t.1 < points.length ∧ t.2.1 < points.length ∧ t.2.2 < points.length

instance (points : List V3) (ts : List (ℕ × ℕ × ℕ)) : Decidable (InBounds points ts) := by
  unfold InBounds
  infer_instance

/-- Accumulated signed volume of a list of position triples. -/
def totalVol (L : List (V3 × V3 × V3)) : ℚ :=
  (L.map fun v => triVol v.1 v.2.1 v.2.2).sum

/-- Accumulated weighted center of a list of position triples. -/
def totalW (L : List (V3 × V3 × V3)) : V3 :=
  (L.map fun v => triVol v.1 v.2.1 v.2.2 • tetraCenter v.1 v.2.1 v.2.2).sum

/-- Accumulated origin-frame inertia of a list of position triples. -/
def totalI (L : List (V3 × V3 × V3)) : Mat3 :=
  (L.map fun v => triInertia v.1 v.2.1 v.2.2).sum

/-- Closed form of one loop iteration when the index asserts pass. -/
lemma processTriangle_some (points : List V3) (st : AccumState) (t : ℕ × ℕ × ℕ)
    (h : t.1 < points.length ∧ t.2.1 < points.length ∧ t.2.2 < points.length) :
    processTriangle points st t =
      some (st.1 + triVol (fetch points t).1 (fetch points t).2.1 (fetch points t).2.2,
            st.2.1 + triVol (fetch points t).1 (fetch points t).2.1 (fetch points t).2.2 •
              tetraCenter (fetch points t).1 (fetch points t).2.1 (fetch points t).2.2,
            st.2.2 + triInertia (fetch points t).1 (fetch points t).2.1 (fetch points t).2.2) := by
  simp only [processTriangle, if_pos h, fetch]
  rw [tetraInertia_originFrame, computeTetrahedronVolume_cons]

/-- One loop iteration fails (assertion) when an index is out of range. -/
lemma processTriangle_none (points : List V3) (st : AccumState) (t : ℕ × ℕ × ℕ)
    (h : ¬ (t.1 < points.length ∧ t.2.1 < points.length ∧ t.2.2 < points.length)) :
    processTriangle points st t = none := by
  simp only [processTriangle, if_neg h]

/-- The whole triangle loop, on an in-bounds triple list, adds the three
accumulated totals to the starting state. -/
lemma foldlM_processTriangle (points : List V3) (ts : List (ℕ × ℕ × ℕ))
    (hb : InBounds points ts) (st : AccumState) :
    ts.foldlM (processTriangle points) st =
      some (st.1 + totalVol (ts.map (fetch points)),
            st.2.1 + totalW (ts.map (fetch points)),
            st.2.2 + totalI (ts.map (fetch points))) := by
  induction ts generalizing st with
  | nil => simp [totalVol, totalW, totalI]
  | cons t ts ih =>
    have hbt := hb t (List.mem_cons_self t ts)
    have hbs : InBounds points ts := fun u hu => hb u (List.mem_cons_of_mem _ hu)
    rw [List.foldlM_cons, processTriangle_some points st t hbt]
    simp only [Option.bind_eq_bind, Option.some_bind]
    rw [ih hbs]
    simp only [totalVol, totalW, totalI, List.map_cons, List.sum_cons]
    refine congrArg some ?_
    refine Prod.ext ?_ (Prod.ext ?_ ?_) <;> simp [add_assoc]

/-- A successful triangle loop implies every index was in bounds. -/
lemma foldlM_isSome_inBounds (points : List V3) (ts : List (ℕ × ℕ × ℕ)) :
    ∀ st st', ts.foldlM (processTriangle points) st = some st' → InBounds points ts := by
  induction ts with
  | nil => intro st st' _ u hu; simp at hu
  | cons t ts ih =>
    intro st st' h
    rw [List.foldlM_cons] at h
    by_cases hbt : t.1 < points.length ∧ t.2.1 < points.length ∧ t.2.2 < points.length
    · intro u hu
      rcases List.mem_cons.mp hu with rfl | hmem
      · exact hbt
      · rw [processTriangle_some points st t hbt] at h
        simp only [Option.bind_eq_bind, Option.some_bind] at h
        exact ih _ _ h u hmem
    · rw [processTriangle_none points st t hbt] at h
      simp at h

/-- Closed form of computeMassProperties on an in-bounds mesh: total
volume, weighted center divided by it, and the accumulated inertia shifted
to the center of mass. -/
lemma computeMassProperties_some (points : List V3) (tri : List ℕ)
    (hb : InBounds points (triples tri)) :
    computeMassProperties points tri =
      some ⟨totalVol ((triples tri).map (fetch points)),
            fun m => totalW ((triples tri).map (fetch points)) m /
              totalVol ((triples tri).map (fetch points)),
            applyInverseParallelAxisTheorem
              (totalI ((triples tri).map (fetch points)))
              (fun m => totalW ((triples tri).map (fetch points)) m /
                totalVol ((triples tri).map (fetch points)))
              (totalVol ((triples tri).map (fetch points)))⟩ := by
  unfold computeMassProperties
  rw [foldlM_processTriangle points _ hb]
  simp

/-- A successful computeMassProperties run implies the index asserts all
passed. -/
lemma computeMassProperties_isSome_inBounds (points : List V3) (tri : List ℕ)
    (r : MassProps) (h : computeMassProperties points tri = some r) :
    InBounds points (triples tri) := by
  unfold computeMassProperties at h
  rcases hst : (triples tri).foldlM (processTriangle points) (0, 0, 0) with _ | st
  · rw [hst] at h; simp at h
  · exact foldlM_isSome_inBounds points _ _ _ hst

/-- With an empty triangle list the totals stay zero and the function
still returns a result: the division by the zero total volume is performed
unconditionally (in rational arithmetic x / 0 = 0; the C++ float build
produces NaN here). -/
lemma computeMassProperties_nil (points : List V3) :
    computeMassProperties points [] = some ⟨0, 0, fun _ _ => 0⟩ := by
  have hb : InBounds points (triples []) := by
    intro u hu; simp [triples] at hu
  rw [computeMassProperties_some points [] hb]
  have hV : totalVol ((triples []).map (fetch points)) = 0 := rfl
  have hW : totalW ((triples []).map (fetch points)) = 0 := rfl
  have hI : totalI ((triples []).map (fetch points)) = 0 := rfl
  rw [hV, hW, hI, applyInverseParallelAxisTheorem_eq]
  refine congrArg some ?_
  simp only [MassProps.mk.injEq]
  refine ⟨trivial, ?_, ?_⟩
  · funext m; simp
  · funext a b; by_cases hab : a = b <;> simp [hab]

/-- Dropping the trailing one or two indices does not change the triple
list: the loop bound is numTriangles = length / 3. -/
lemma triples_take : ∀ tri : List ℕ,
    triples (tri.take (3 * (tri.length / 3))) = triples tri
  | [] => rfl
  | [_] => by simp [triples]
  | [_, _] => by simp [triples]
  | a :: b :: c :: rest => by
    have ih := triples_take rest
    have h3 : 3 * ((a :: b :: c :: rest).length / 3) =
        3 * (rest.length / 3) + 2 + 1 := by
      simp only [List.length_cons]
      omega
    rw [h3, List.take_succ_cons,
      show 3 * (rest.length / 3) + 2 = 3 * (rest.length / 3) + 1 + 1 from rfl,
      List.take_succ_cons,
      show (3 : ℕ) * (rest.length / 3) + 1 = 3 * (rest.length / 3) + 1 from rfl,
      List.take_succ_cons]
    show (a, b, c) :: triples (rest.take (3 * (rest.length / 3))) = (a, b, c) :: triples rest
    rw [ih]

/-- The result of computeMassProperties depends only on the first
3·(length/3) triangle indices. -/
lemma computeMassProperties_take (points : List V3) (tri : List ℕ) :
    computeMassProperties points tri =
      computeMassProperties points (tri.take (3 * (tri.length / 3))) := by
  unfold computeMassProperties
  rw [triples_take]

/-! ## Concrete evaluation: the unit cube -/

/-- A list sum of functions, applied at a point, is the sum of the values. -/
lemma list_sum_apply {ι β : Type} [AddCommMonoid β] (l : List (ι → β)) (x : ι) :
    l.sum x = (l.map fun f => f x).sum := by
  induction l with
  | nil => rfl
  | cons f l ih => simp [List.sum_cons, ih]

/-- Total volume of the unit-cube mesh. -/
lemma cube_totalVol :
    totalVol ((triples cubeTriangles).map (fetch cubePoints)) = 1 := by
  norm_num [totalVol, cubeTriangles, cubePoints, triples, fetch, triVol, dot, cross]

/-- Total weighted center of the unit-cube mesh. -/
lemma cube_totalW :
    totalW ((triples cubeTriangles).map (fetch cubePoints)) = 0 := by
  funext m
  rw [totalW, list_sum_apply]
  fin_cases m <;>
    norm_num [cubeTriangles, cubePoints, triples, fetch, triVol, tetraCenter, dot, cross]

set_option maxHeartbeats 4000000 in
/-- Total origin-frame inertia of the unit-cube mesh. -/
lemma cube_totalI :
    totalI ((triples cubeTriangles).map (fetch cubePoints)) =
      fun a b => if a = b then 1/6 else 0 := by
  funext a b
  rw [totalI, list_sum_apply, List.map_map, list_sum_apply]
  fin_cases a <;> fin_cases b <;>
    norm_num [cubeTriangles, cubePoints, triples, fetch, triInertia, secondMoment,
      tetraCenter, dot, cross, Fin.ext_iff]

/-- Full evaluation of computeMassProperties on the unit cube. -/
lemma cube_eval : computeMassProperties cubePoints cubeTriangles = some cubeProps := by
  have hb : InBounds cubePoints (triples cubeTriangles) := by decide
  rw [computeMassProperties_some _ _ hb]
  simp only [cube_totalVol, cube_totalW, cube_totalI]
  have hcom : (fun m => (0 : V3) m / (1 : ℚ)) = (0 : V3) := by funext m; simp
  rw [hcom]
  have hJ : applyInverseParallelAxisTheorem
      (fun a b => if a = b then 1/6 else 0) (0 : V3) 1 =
      fun a b => if a = b then 1/6 else 0 := by
    rw [applyInverseParallelAxisTheorem_eq]
    funext a b
    by_cases hab : a = b <;> simp [hab, length2, dot]
  rw [hJ]
  rfl

/-! ## Symmetry of the inertia tensor -/

/-- Tonon's formulas write mirrored off-diagonal entries, so the computed
tetrahedron inertia is symmetric for every mass and every point set. -/
lemma computeTetrahedronInertia_isSymm (mass : ℚ) (p : Fin 4 → V3) :
    Mat3.IsSymm (computeTetrahedronInertia mass p) := by
  intro i j
  fin_cases i <;> fin_cases j <;>
    simp [computeTetrahedronInertia, tetrahedronInertiaStep, matSet, Fin.ext_iff]

/-- The parallel-axis update preserves symmetry. -/
lemma applyParallelAxisTheorem_isSymm (I : Mat3) (s : V3) (m : ℚ)
    (h : Mat3.IsSymm I) : Mat3.IsSymm (applyParallelAxisTheorem I s m) := by
  intro i j
  rw [applyParallelAxisTheorem_eq]
  by_cases hij : i = j
  · simp [hij]
  · simp only [hij, Ne.symm hij, if_false, if_neg]
    rw [h i j]
    ring

/-- The inverse parallel-axis update preserves symmetry. -/
lemma applyInverseParallelAxisTheorem_isSymm (I : Mat3) (s : V3) (m : ℚ)
    (h : Mat3.IsSymm I) : Mat3.IsSymm (applyInverseParallelAxisTheorem I s m) := by
  intro i j
  rw [applyInverseParallelAxisTheorem_eq]
  by_cases hij : i = j
  · simp [hij]
  · simp only [hij, Ne.symm hij, if_false, if_neg]
    rw [h i j]
    ring

/-- The closed-form per-triangle inertia contribution is symmetric. -/
lemma triInertia_isSymm (a b c : V3) : Mat3.IsSymm (triInertia a b c) := by
  intro i j
  by_cases hij : i = j
  · rw [hij]
  · simp only [triInertia, hij, Ne.symm hij, if_false, if_neg, secondMoment]
    ring

/-- The accumulated inertia stays symmetric through the triangle loop. -/
lemma foldlM_isSymm (points : List V3) (ts : List (ℕ × ℕ × ℕ)) :
    ∀ st st', Mat3.IsSymm st.2.2 →
      ts.foldlM (processTriangle points) st = some st' → Mat3.IsSymm st'.2.2 := by
  induction ts with
  | nil =>
    intro st st' hs h
    simp only [List.foldlM_nil] at h
    cases h
    exact hs
  | cons t ts ih =>
    intro st st' hs h
    rw [List.foldlM_cons] at h
    by_cases hbt : t.1 < points.length ∧ t.2.1 < points.length ∧ t.2.2 < points.length
    · rw [processTriangle_some points st t hbt] at h
      simp only [Option.bind_eq_bind, Option.some_bind] at h
      refine ih _ _ ?_ h
      intro i j
      simp only [Pi.add_apply]
      rw [hs i j, triInertia_isSymm _ _ _ i j]
    · rw [processTriangle_none points st t hbt] at h
      simp at h

/-- The final inertia tensor returned by computeMassProperties is
symmetric. -/
lemma computeMassProperties_isSymm (points : List V3) (tri : List ℕ)
    (r : MassProps) (h : computeMassProperties points tri = some r) :
    Mat3.IsSymm r.inertia := by
  unfold computeMassProperties at h
  rcases hst : (triples tri).foldlM (processTriangle points) (0, 0, 0) with _ | st
  · rw [hst] at h; simp at h
  · rw [hst] at h
    simp only [Option.bind_eq_bind, Option.some_bind] at h
    have hsym : Mat3.IsSymm st.2.2 :=
      foldlM_isSymm points _ _ _ (fun _ _ => rfl) hst
    rw [Option.some_inj] at h
    subst h
    exact applyInverseParallelAxisTheorem_isSymm _ _ _ hsym

/-! ## Parallel-axis round trip and volume identities -/

/-- Forward then inverse parallel-axis shift with the same offset and mass
is the identity on the tensor. -/
lemma parallelAxis_roundtrip (I : Mat3) (shift : V3) (mass : ℚ) :
    applyInverseParallelAxisTheorem
      (applyParallelAxisTheorem I shift mass) shift mass = I := by
  rw [applyParallelAxisTheorem_eq, applyInverseParallelAxisTheorem_eq]
  funext a b
  by_cases hab : a = b
  · simp [hab]
  · simp [hab]

/-- The tetrahedron volume equals one sixth of the scalar triple product of
the edge vectors from the apex p0. -/
lemma computeTetrahedronVolume_tripleProduct (p : Fin 4 → V3) :
    computeTetrahedronVolume p =
      dot (p 1 - p 0) (cross (p 2 - p 0) (p 3 - p 0)) / 6 := by
  simp only [computeTetrahedronVolume, dot, cross, Pi.sub_apply,
    Matrix.cons_val_zero, Matrix.cons_val_one, Matrix.head_cons, Matrix.cons_val_two,
    Matrix.tail_cons]
  ring

/-! ## Translation invariance: directed edges and cancellation

For a closed, consistently wound mesh every directed edge occurs together
with its reversal, so any edge-antisymmetric quantity summed over all
triangle edges cancels.  The change of each accumulated total under a
translation of the vertices decomposes into such edge sums. -/

/-- The directed edges of a list of position triples. -/
def edges : List (V3 × V3 × V3) → List (V3 × V3)
  | [] => []
  | v :: L => (v.1, v.2.1) :: (v.2.1, v.2.2) :: (v.2.2, v.1) :: edges L

/-- A closed, consistently wound mesh: the directed edge list is a
permutation of its reversal. -/
def IsClosed (L : List (V3 × V3 × V3)) : Prop :=
  (edges L).Perm ((edges L).map Prod.swap)

/-- Summing the negated values equals the negated sum. -/
lemma list_sum_map_neg {α β : Type} [AddCommGroup β] (l : List α) (f : α → β) :
    (l.map fun x => - f x).sum = - (l.map f).sum := by
  induction l with
  | nil => simp
  | cons x l ih =>
    simp only [List.map_cons, List.sum_cons, ih]
    abel

/-- Summing a pointwise sum equals the sum of the sums. -/
lemma list_sum_map_add {α β : Type} [AddCommMonoid β] (l : List α) (f g : α → β) :
    (l.map fun x => f x + g x).sum = (l.map f).sum + (l.map g).sum := by
  induction l with
  | nil => simp
  | cons x l ih =>
    simp only [List.map_cons, List.sum_cons, ih]
    abel

/-- Summing a pointwise difference equals the difference of the sums. -/
lemma list_sum_map_sub {α β : Type} [AddCommGroup β] (l : List α) (f g : α → β) :
    (l.map fun x => f x - g x).sum = (l.map f).sum - (l.map g).sum := by
  induction l with
  | nil => simp
  | cons x l ih =>
    simp only [List.map_cons, List.sum_cons, ih]
    abel

/-- A sum over all directed edges, triangle by triangle. -/
lemma edges_sum {β : Type} [AddCommMonoid β] (g : V3 × V3 → β) (L : List (V3 × V3 × V3)) :
    ((edges L).map g).sum =
      (L.map fun v => g (v.1, v.2.1) + g (v.2.1, v.2.2) + g (v.2.2, v.1)).sum := by
  induction L with
  | nil => rfl
  | cons v L ih =>
    simp only [edges, List.map_cons, List.sum_cons, ih]
    abel

/-- An edge-antisymmetric quantity sums to zero over the edges of a closed
mesh. -/
lemma sum_edges_eq_zero {β : Type} [AddCommGroup β] [Module ℚ β]
    (f : V3 × V3 → β) (hf : ∀ u v : V3, f (v, u) = - f (u, v))
    {L : List (V3 × V3 × V3)} (hc : IsClosed L) :
    ((edges L).map f).sum = 0 := by
  have h1 : ((edges L).map f).sum = (((edges L).map Prod.swap).map f).sum :=
    List.Perm.sum_eq (hc.map f)
  rw [List.map_map] at h1
  have h2 : (edges L).map (f ∘ Prod.swap) = (edges L).map fun e => - f e := by
    apply List.map_congr_left
    intro e _
    cases e with
    | mk u v => exact hf u v
  rw [h2, list_sum_map_neg] at h1
  have h3 : (2 : ℚ) • ((edges L).map f).sum = 0 := by
    rw [two_smul]
    nth_rewrite 1 [h1]
    exact neg_add_cancel _
  have h4 : ((2 : ℚ)⁻¹ * 2) • ((edges L).map f).sum = 0 := by
    rw [mul_smul, h3, smul_zero]
  norm_num at h4
  exact h4

/-- Per-edge volume correction under translation. -/
def eVol (t : V3) (e : V3 × V3) : ℚ := dot t (cross e.1 e.2) / 6

/-- Per-edge weighted-center correction under translation (one entry). -/
def eW (t : V3) (e : V3 × V3) (m : Fin 3) : ℚ :=
  (dot t (cross e.1 e.2) / 24) * (e.1 m + e.2 m + 3 * t m)

/-- Per-edge second-moment correction under translation (one entry). -/
def eC (t : V3) (e : V3 × V3) (i j : Fin 3) : ℚ :=
  (dot t (cross e.1 e.2) / 120) *
    (e.1 i * e.1 j + e.2 i * e.2 j + (e.1 i + e.2 i) * (e.1 j + e.2 j)
     + 4 * ((e.1 i + e.2 i) * t j + t i * (e.1 j + e.2 j)) + 12 * (t i * t j))

lemma eVol_antisymm (t u v : V3) : eVol t (v, u) = - eVol t (u, v) := by
  simp only [eVol, dot, cross, Matrix.cons_val_zero, Matrix.cons_val_one,
    Matrix.head_cons, Matrix.cons_val_two, Matrix.tail_cons]
  ring

lemma eW_antisymm (t u v : V3) (m : Fin 3) : eW t (v, u) m = - eW t (u, v) m := by
  simp only [eW, dot, cross, Matrix.cons_val_zero, Matrix.cons_val_one,
    Matrix.head_cons, Matrix.cons_val_two, Matrix.tail_cons]
  ring

lemma eC_antisymm (t u v : V3) (i j : Fin 3) : eC t (v, u) i j = - eC t (u, v) i j := by
  simp only [eC, dot, cross, Matrix.cons_val_zero, Matrix.cons_val_one,
    Matrix.head_cons, Matrix.cons_val_two, Matrix.tail_cons]
  ring

/-- Translating a triangle changes its signed volume by an edge sum. -/
lemma translate_triVol (t a b c : V3) :
    triVol (a + t) (b + t) (c + t) =
      triVol a b c + (eVol t (a, b) + eVol t (b, c) + eVol t (c, a)) := by
  simp [triVol, eVol, dot, cross]
  ring

set_option maxHeartbeats 2000000 in
/-- Translating a triangle changes its weighted-center contribution by the
volume times the translation plus an edge sum. -/
lemma translate_triW (t a b c : V3) (m : Fin 3) :
    triVol (a + t) (b + t) (c + t) * tetraCenter (a + t) (b + t) (c + t) m =
      triVol a b c * tetraCenter a b c m + triVol a b c * t m +
      (eW t (a, b) m + eW t (b, c) m + eW t (c, a) m) := by
  fin_cases m <;>
  · simp [triVol, tetraCenter, eW, dot, cross]
    ring

set_option maxHeartbeats 8000000 in
/-- Translating a triangle changes its second-moment contribution by the
parallel-axis terms plus an edge sum. -/
lemma translate_secondMoment (t a b c : V3) (i j : Fin 3) :
    secondMoment (a + t) (b + t) (c + t) i j =
      secondMoment a b c i j
      + t i * (triVol a b c * tetraCenter a b c j)
      + (triVol a b c * tetraCenter a b c i) * t j
      + triVol a b c * (t i * t j)
      + (eC t (a, b) i j + eC t (b, c) i j + eC t (c, a) i j) := by
  fin_cases i <;> fin_cases j <;>
  · simp [secondMoment, triVol, tetraCenter, eC, dot, cross]
    ring

/-! ## Translation of the accumulated totals -/

/-- Accumulated second moment of a list of position triples. -/
def totalC (L : List (V3 × V3 × V3)) : Mat3 :=
  (L.map fun v => secondMoment v.1 v.2.1 v.2.2).sum

lemma list_sum_map_mul_right {α : Type} (l : List α) (f : α → ℚ) (c : ℚ) :
    (l.map fun x => f x * c).sum = (l.map f).sum * c := by
  induction l with
  | nil => simp
  | cons x l ih => simp [ih, add_mul]

lemma list_sum_map_mul_left {α : Type} (l : List α) (f : α → ℚ) (c : ℚ) :
    (l.map fun x => c * f x).sum = c * (l.map f).sum := by
  induction l with
  | nil => simp
  | cons x l ih => simp [ih, mul_add]

/-- Entry form of the accumulated weighted center. -/
lemma totalW_apply (L : List (V3 × V3 × V3)) (m : Fin 3) :
    totalW L m =
      (L.map fun v => triVol v.1 v.2.1 v.2.2 * tetraCenter v.1 v.2.1 v.2.2 m).sum := by
  rw [totalW, list_sum_apply, List.map_map]
  rfl

/-- Entry form of the accumulated second moment. -/
lemma totalC_apply (L : List (V3 × V3 × V3)) (i j : Fin 3) :
    totalC L i j = (L.map fun v => secondMoment v.1 v.2.1 v.2.2 i j).sum := by
  rw [totalC, list_sum_apply, List.map_map, list_sum_apply, List.map_map]
  rfl

/-- Entry form of the accumulated inertia. -/
lemma totalI_apply (L : List (V3 × V3 × V3)) (i j : Fin 3) :
    totalI L i j = (L.map fun v => triInertia v.1 v.2.1 v.2.2 i j).sum := by
  rw [totalI, list_sum_apply, List.map_map, list_sum_apply, List.map_map]
  rfl

/-- The accumulated inertia is trace(C)·E − C for the accumulated second
moment C. -/
lemma totalI_entry (L : List (V3 × V3 × V3)) (i j : Fin 3) :
    totalI L i j =
      (if i = j then totalC L 0 0 + totalC L 1 1 + totalC L 2 2 else 0) -
        totalC L i j := by
  rw [totalI_apply, totalC_apply, totalC_apply, totalC_apply, totalC_apply]
  by_cases hij : i = j
  · subst hij
    simp only [triInertia, eq_self_iff_true, ite_true]
    rw [list_sum_map_sub, list_sum_map_add, list_sum_map_add]
  · simp only [triInertia, hij, if_false, ite_false, zero_sub]
    rw [list_sum_map_neg]

/-- Translating every vertex leaves the accumulated volume of a closed
mesh unchanged. -/
lemma totalVol_translate (t : V3) {L : List (V3 × V3 × V3)} (hc : IsClosed L) :
    totalVol (L.map fun v => (v.1 + t, v.2.1 + t, v.2.2 + t)) = totalVol L := by
  have hz : ((edges L).map (eVol t)).sum = 0 :=
    sum_edges_eq_zero (eVol t) (fun u v => eVol_antisymm t u v) hc
  rw [edges_sum] at hz
  rw [totalVol, List.map_map]
  have h1 : L.map ((fun v => triVol v.1 v.2.1 v.2.2) ∘
        fun v => (v.1 + t, v.2.1 + t, v.2.2 + t))
      = L.map fun v => triVol v.1 v.2.1 v.2.2 +
          (eVol t (v.1, v.2.1) + eVol t (v.2.1, v.2.2) + eVol t (v.2.2, v.1)) := by
    apply List.map_congr_left
    intro v _
    exact translate_triVol t v.1 v.2.1 v.2.2
  rw [h1, list_sum_map_add, hz, add_zero]
  rfl

/-- Translating every vertex shifts the accumulated weighted center of a
closed mesh by volume times the translation. -/
lemma totalW_translate (t : V3) {L : List (V3 × V3 × V3)} (hc : IsClosed L)
    (m : Fin 3) :
    totalW (L.map fun v => (v.1 + t, v.2.1 + t, v.2.2 + t)) m =
      totalW L m + totalVol L * t m := by
  have hz : ((edges L).map fun e => eW t e m).sum = 0 :=
    sum_edges_eq_zero _ (fun u v => eW_antisymm t u v m) hc
  rw [edges_sum] at hz
  rw [totalW_apply, List.map_map]
  have h1 : L.map ((fun v => triVol v.1 v.2.1 v.2.2 * tetraCenter v.1 v.2.1 v.2.2 m) ∘
        fun v => (v.1 + t, v.2.1 + t, v.2.2 + t))
      = L.map fun v => (triVol v.1 v.2.1 v.2.2 * tetraCenter v.1 v.2.1 v.2.2 m +
          triVol v.1 v.2.1 v.2.2 * t m) +
          (eW t (v.1, v.2.1) m + eW t (v.2.1, v.2.2) m + eW t (v.2.2, v.1) m) := by
    apply List.map_congr_left
    intro v _
    exact translate_triW t v.1 v.2.1 v.2.2 m
  rw [h1, list_sum_map_add, hz, add_zero, list_sum_map_add]
  rw [totalW_apply, totalVol, list_sum_map_mul_right]

/-- Translating every vertex shifts the accumulated second moment of a
closed mesh by the rank-one parallel-axis terms. -/
lemma totalC_translate (t : V3) {L : List (V3 × V3 × V3)} (hc : IsClosed L)
    (i j : Fin 3) :
    totalC (L.map fun v => (v.1 + t, v.2.1 + t, v.2.2 + t)) i j =
      totalC L i j + t i * totalW L j + totalW L i * t j +
        totalVol L * (t i * t j) := by
  have hz : ((edges L).map fun e => eC t e i j).sum = 0 :=
    sum_edges_eq_zero _ (fun u v => eC_antisymm t u v i j) hc
  rw [edges_sum] at hz
  rw [totalC_apply, List.map_map]
  have h1 : L.map ((fun v => secondMoment v.1 v.2.1 v.2.2 i j) ∘
        fun v => (v.1 + t, v.2.1 + t, v.2.2 + t))
      = L.map fun v => (secondMoment v.1 v.2.1 v.2.2 i j
          + t i * (triVol v.1 v.2.1 v.2.2 * tetraCenter v.1 v.2.1 v.2.2 j)
          + (triVol v.1 v.2.1 v.2.2 * tetraCenter v.1 v.2.1 v.2.2 i) * t j
          + triVol v.1 v.2.1 v.2.2 * (t i * t j)) +
          (eC t (v.1, v.2.1) i j + eC t (v.2.1, v.2.2) i j + eC t (v.2.2, v.1) i j) := by
    apply List.map_congr_left
    intro v _
    exact translate_secondMoment t v.1 v.2.1 v.2.2 i j
  rw [h1, list_sum_map_add, hz, add_zero, list_sum_map_add, list_sum_map_add,
    list_sum_map_add]
  rw [totalC_apply, totalW_apply, totalW_apply, totalVol,
    list_sum_map_mul_left, list_sum_map_mul_right, list_sum_map_mul_right]

set_option maxHeartbeats 2000000 in
/-- The final center-of-mass-frame inertia of a closed mesh is unchanged
by a translation of all vertices. -/
lemma translate_inertia (t : V3) {L : List (V3 × V3 × V3)} (hc : IsClosed L)
    (hV : totalVol L ≠ 0) :
    applyInverseParallelAxisTheorem
      (totalI (L.map fun v => (v.1 + t, v.2.1 + t, v.2.2 + t)))
      (fun m => totalW (L.map fun v => (v.1 + t, v.2.1 + t, v.2.2 + t)) m /
        totalVol (L.map fun v => (v.1 + t, v.2.1 + t, v.2.2 + t)))
      (totalVol (L.map fun v => (v.1 + t, v.2.1 + t, v.2.2 + t))) =
    applyInverseParallelAxisTheorem (totalI L)
      (fun m => totalW L m / totalVol L) (totalVol L) := by
  rw [applyInverseParallelAxisTheorem_eq, applyInverseParallelAxisTheorem_eq]
  funext i j
  by_cases hij : i = j
  · subst hij
    simp only [if_pos rfl, totalI_entry, totalVol_translate t hc,
      totalW_translate t hc, totalC_translate t hc, length2, dot]
    field_simp
    ring
  · simp only [hij, if_false, ite_false, totalI_entry, totalVol_translate t hc,
      totalW_translate t hc, totalC_translate t hc]
    field_simp
    ring

/-- Vertex fetches from the translated vertex buffer are the translated
fetches, for in-range indices. -/
lemma fetch_map_translate (points : List V3) (t : V3) (u : ℕ × ℕ × ℕ)
    (hu : u.1 < points.length ∧ u.2.1 < points.length ∧ u.2.2 < points.length) :
    fetch (points.map fun p => p + t) u =
      ((fetch points u).1 + t, (fetch points u).2.1 + t, (fetch points u).2.2 + t) := by
  have key : ∀ k, k < points.length →
      (points.map fun p => p + t).getD k 0 = points.getD k 0 + t := by
    intro k hk
    rw [List.getD_eq_getElem _ _ (by simpa using hk), List.getD_eq_getElem _ _ hk,
      List.getElem_map]
  unfold fetch
  rw [key u.1 hu.1, key u.2.1 hu.2.1, key u.2.2 hu.2.2]

/-- The position triples of the translated mesh are the translated
position triples. -/
lemma map_fetch_translate (points : List V3) (tri : List ℕ) (t : V3)
    (hb : InBounds points (triples tri)) :
    (triples tri).map (fetch (points.map fun p => p + t)) =
      ((triples tri).map (fetch points)).map
        (fun v => (v.1 + t, v.2.1 + t, v.2.2 + t)) := by
  rw [List.map_map]
  apply List.map_congr_left
  intro u hu
  exact fetch_map_translate points t u (hb u hu)

/-- Translating the whole mesh: computeMassProperties returns the same
volume, the translated center of mass, and the same inertia tensor. -/
lemma computeMassProperties_translate (points : List V3) (tri : List ℕ)
    (t : V3) (r : MassProps)
    (h : computeMassProperties points tri = some r)
    (hc : IsClosed ((triples tri).map (fetch points)))
    (hV : r.volume ≠ 0) :
    computeMassProperties (points.map fun p => p + t) tri =
      some ⟨r.volume, r.centerOfMass + t, r.inertia⟩ := by
  have hb := computeMassProperties_isSome_inBounds points tri r h
  have hb' : InBounds (points.map fun p => p + t) (triples tri) := by
    intro u hu
    have hu2 := hb u hu
    simpa [List.length_map] using hu2
  rw [computeMassProperties_some _ _ hb, Option.some_inj] at h
  subst h
  rw [computeMassProperties_some _ _ hb', map_fetch_translate points tri t hb]
  refine congrArg some ?_
  have hV2 : totalVol ((triples tri).map (fetch points)) ≠ 0 := hV
  simp only [MassProps.mk.injEq]
  refine ⟨totalVol_translate t hc, ?_, translate_inertia t hc hV2⟩
  funext m
  rw [totalW_translate t hc m, totalVol_translate t hc]
  have hrhs : (MassProps.centerOfMass
      ⟨totalVol ((triples tri).map (fetch points)),
       fun m => totalW ((triples tri).map (fetch points)) m /
         totalVol ((triples tri).map (fetch points)),
       applyInverseParallelAxisTheorem (totalI ((triples tri).map (fetch points)))
         (fun m => totalW ((triples tri).map (fetch points)) m /
           totalVol ((triples tri).map (fetch points)))
         (totalVol ((triples tri).map (fetch points)))⟩ + t) m =
      totalW ((triples tri).map (fetch points)) m /
        totalVol ((triples tri).map (fetch points)) + t m := rfl
  rw [hrhs]
  field_simp
  ring

/-! ## Concrete evaluation: a closed tetrahedron mesh -/

/-- Vertices of a unit right tetrahedron with one vertex at the origin. -/
def tetPoints : List V3 := [0, ![1, 0, 0], ![0, 1, 0], ![0, 0, 1]]

/-- The four outward-wound faces of the tetrahedron (as in the brute-force
oracle in MeshMassProperties.cpp:115-119). -/
def tetTriangles : List ℕ := [0, 2, 1, 0, 3, 2, 0, 1, 3, 1, 2, 3]

/-- Expected mass properties of the unit right tetrahedron. -/
def tetProps : MassProps :=
  ⟨1/6, fun _ => 1/4, fun a b => if a = b then 1/80 else 1/480⟩

/-- The tetrahedron mesh is closed and consistently wound. -/
lemma tet_closed : IsClosed ((triples tetTriangles).map (fetch tetPoints)) := by
  unfold IsClosed
  decide

lemma tet_totalVol :
    totalVol ((triples tetTriangles).map (fetch tetPoints)) = 1/6 := by
  norm_num [totalVol, tetTriangles, tetPoints, triples, fetch, triVol, dot, cross]

lemma tet_totalW (m : Fin 3) :
    totalW ((triples tetTriangles).map (fetch tetPoints)) m = 1/24 := by
  rw [totalW_apply]
  fin_cases m <;>
    norm_num [tetTriangles, tetPoints, triples, fetch, triVol, tetraCenter, dot, cross]

set_option maxHeartbeats 4000000 in
lemma tet_totalI (i j : Fin 3) :
    totalI ((triples tetTriangles).map (fetch tetPoints)) i j =
      if i = j then 1/30 else -(1/120) := by
  rw [totalI_apply]
  fin_cases i <;> fin_cases j <;>
    norm_num [tetTriangles, tetPoints, triples, fetch, triInertia, secondMoment,
      tetraCenter, dot, cross, Fin.ext_iff]

/-- Full evaluation of computeMassProperties on the tetrahedron mesh. -/
lemma tet_eval : computeMassProperties tetPoints tetTriangles = some tetProps := by
  have hb : InBounds tetPoints (triples tetTriangles) := by decide
  rw [computeMassProperties_some _ _ hb]
  refine congrArg some ?_
  simp only [tetProps, MassProps.mk.injEq]
  refine ⟨tet_totalVol, ?_, ?_⟩
  · funext m
    rw [tet_totalW m, tet_totalVol]
    norm_num
  · funext a b
    rw [applyInverseParallelAxisTheorem_eq]
    by_cases hab : a = b
    · simp only [hab, if_pos rfl, ite_true, tet_totalI, tet_totalW, tet_totalVol,
        length2, dot, eq_self_iff_true]
      norm_num
    · simp only [hab, if_false, ite_false, tet_totalI, tet_totalW, tet_totalVol]
      norm_num

/-! ## The claims -/

/-- C1: for the unit-cube mesh with the eight vertices (±1/2, ±1/2, ±1/2)
and 12 outward-wound triangles, computeMassProperties produces volume 1,
centerOfMass (0,0,0) and inertia diag(1/6, 1/6, 1/6). -/
theorem c1_unit_cube :
    computeMassProperties cubePoints cubeTriangles = some cubeProps :=
  cube_eval

/-- C2 counterexample: on the one-triangle mesh with vertices (3,0,0),
(0,3,0), (0,0,3) the center used by computeMassProperties (its
weighted-center output for the single tetrahedron) is
tetraCenter = (3/4, 3/4, 3/4), which is not the average
(p1 + p2 + p3)/3 = (1, 1, 1) of the three non-origin vertices. -/
theorem c2_centroid_counterexample :
    (computeMassProperties [![3, 0, 0], ![0, 3, 0], ![0, 0, 3]] [0, 1, 2]).map
        MassProps.centerOfMass =
      some (tetraCenter ![3, 0, 0] ![0, 3, 0] ![0, 0, 3]) ∧
    tetraCenter ![3, 0, 0] ![0, 3, 0] ![0, 0, 3] ≠
      (1/3 : ℚ) • (![3, 0, 0] + ![0, 3, 0] + ![0, 0, 3] : V3) := by
  constructor
  · have hb : InBounds [![3, 0, 0], ![0, 3, 0], ![0, 0, 3]] (triples [0, 1, 2]) := by
      decide
    rw [computeMassProperties_some _ _ hb]
    simp only [Option.map_some']
    refine congrArg some ?_
    funext m
    rw [totalW_apply]
    fin_cases m <;>
      norm_num [triples, fetch, triVol, tetraCenter, dot, cross, totalVol]
  · intro h
    have h0 := congrFun h 0
    norm_num [tetraCenter] at h0

/-- C2 amended: the per-tetrahedron center used by computeMassProperties
is 1/4 of the sum of the three non-origin vertices, i.e. the centroid of
all four tetrahedron vertices (the fourth being the origin); subtracting
it makes the four shifted vertices sum to zero, which is exactly the
precondition documented by computeTetrahedronInertia. -/
theorem c2_centroid_amended (q1 q2 q3 : V3) :
    tetraCenter q1 q2 q3 = (1/4 : ℚ) • ((0 : V3) + q1 + q2 + q3) ∧
    ((0 : V3) - tetraCenter q1 q2 q3) + (q1 - tetraCenter q1 q2 q3) +
      (q2 - tetraCenter q1 q2 q3) + (q3 - tetraCenter q1 q2 q3) = 0 := by
  constructor <;>
  · funext m
    simp only [tetraCenter, Pi.smul_apply, Pi.add_apply, Pi.sub_apply,
      Pi.zero_apply, smul_eq_mul]
    ring

/-- C3 counterexample: on an empty triangle list the accumulated volume is
zero, yet computeMassProperties raises no error: it returns an ordinary
result (the division by the zero volume is performed unconditionally; with
rational arithmetic x / 0 = 0, and in the C++ float build the center of
mass is NaN). -/
theorem c3_zero_volume_counterexample :
    computeMassProperties cubePoints [] = some ⟨0, 0, fun _ _ => 0⟩ ∧
    computeMassProperties cubePoints [] ≠ none := by
  refine ⟨computeMassProperties_nil cubePoints, ?_⟩
  rw [computeMassProperties_nil cubePoints]
  simp

/-- C3 amended: computeMassProperties contains no zero-volume check; for
every vertex buffer it completes on an empty triangle list and returns a
normally-shaped result with volume 0 (the center-of-mass division is
executed unconditionally, yielding NaN in the C++ float build). -/
theorem c3_zero_volume_amended (points : List V3) :
    computeMassProperties points [] = some ⟨0, 0, fun _ _ => 0⟩ :=
  computeMassProperties_nil points

/-- C4 counterexample: with a triangle index list of length 4 the function
does not fail: it returns the same result as for the truncated list of
length 3. -/
theorem c4_not_multiple_counterexample :
    computeMassProperties cubePoints [0, 2, 1, 7] =
      computeMassProperties cubePoints [0, 2, 1] ∧
    (computeMassProperties cubePoints [0, 2, 1, 7]).isSome = true := by
  constructor
  · rfl
  · have hb : InBounds cubePoints (triples [0, 2, 1, 7]) := by decide
    rw [computeMassProperties_some _ _ hb]
    rfl

/-- C4 amended: when the index count is not a multiple of 3 there is no
assertion or error for the excess indices; the loop bound length/3 silently
ignores the trailing one or two indices and the result equals that of the
truncated list. -/
theorem c4_not_multiple_amended (points : List V3) (tri : List ℕ)
    (_h : tri.length % 3 ≠ 0) :
    computeMassProperties points tri =
      computeMassProperties points (tri.take (3 * (tri.length / 3))) :=
  computeMassProperties_take points tri

/-- Witness for C4 amended at the concrete list [0, 2, 1, 7]. -/
theorem c4_not_multiple_amended_witness :
    ([0, 2, 1, 7] : List ℕ).length % 3 ≠ 0 ∧
    computeMassProperties cubePoints [0, 2, 1, 7] =
      computeMassProperties cubePoints
        (([0, 2, 1, 7] : List ℕ).take (3 * (([0, 2, 1, 7] : List ℕ).length / 3))) :=
  ⟨by decide, c4_not_multiple_amended cubePoints [0, 2, 1, 7] (by decide)⟩

/-- C5: applying the forward and then the inverse parallel-axis transform
with the same offset and positive mass returns the original tensor. -/
theorem c5_parallel_axis_roundtrip (I : Mat3) (shift : V3) (mass : ℚ)
    (_hm : 0 < mass) :
    applyInverseParallelAxisTheorem
      (applyParallelAxisTheorem I shift mass) shift mass = I :=
  parallelAxis_roundtrip I shift mass

/-- Witness for C5 at a concrete tensor, offset and mass. -/
theorem c5_parallel_axis_roundtrip_witness :
    (0 : ℚ) < 2 ∧
    applyInverseParallelAxisTheorem
      (applyParallelAxisTheorem (fun _ _ => 1) ![1, 2, 3] 2) ![1, 2, 3] 2 =
      (fun _ _ => 1) :=
  ⟨by norm_num, c5_parallel_axis_roundtrip (fun _ _ => 1) ![1, 2, 3] 2 (by norm_num)⟩

/-- C6: symmetry is an invariant everywhere: computeTetrahedronInertia
always returns a symmetric matrix; both parallel-axis transforms map
symmetric matrices to symmetric matrices; the inertia accumulated by the
triangle loop is symmetric after every iteration (every prefix of the
triple list); and the final result of computeMassProperties is symmetric. -/
theorem c6_symmetry_invariant :
    (∀ (mass : ℚ) (p : Fin 4 → V3),
      Mat3.IsSymm (computeTetrahedronInertia mass p)) ∧
    (∀ (I : Mat3) (s : V3) (m : ℚ), Mat3.IsSymm I →
      Mat3.IsSymm (applyParallelAxisTheorem I s m)) ∧
    (∀ (I : Mat3) (s : V3) (m : ℚ), Mat3.IsSymm I →
      Mat3.IsSymm (applyInverseParallelAxisTheorem I s m)) ∧
    (∀ (points : List V3) (tri : List ℕ) (k : ℕ) (st : AccumState),
      ((triples tri).take k).foldlM (processTriangle points) (0, 0, 0) = some st →
        Mat3.IsSymm st.2.2) ∧
    (∀ (points : List V3) (tri : List ℕ) (r : MassProps),
      computeMassProperties points tri = some r → Mat3.IsSymm r.inertia) := by
  refine ⟨computeTetrahedronInertia_isSymm, applyParallelAxisTheorem_isSymm,
    applyInverseParallelAxisTheorem_isSymm, ?_, computeMassProperties_isSymm⟩
  intro points tri k st h
  exact foldlM_isSymm points ((triples tri).take k) (0, 0, 0) st (fun _ _ => rfl) h

/-- Witness for C6, instantiating each hypothesised part. -/
theorem c6_symmetry_invariant_witness :
    Mat3.IsSymm (computeTetrahedronInertia 1 ![0, 0, 0, 0]) ∧
    Mat3.IsSymm (applyParallelAxisTheorem (fun _ _ => 0) ![1, 2, 3] 5) ∧
    Mat3.IsSymm (applyInverseParallelAxisTheorem (fun _ _ => 0) ![1, 2, 3] 5) ∧
    Mat3.IsSymm ((0, 0, 0) : AccumState).2.2 ∧
    Mat3.IsSymm cubeProps.inertia :=
  ⟨c6_symmetry_invariant.1 1 ![0, 0, 0, 0],
   c6_symmetry_invariant.2.1 (fun _ _ => 0) ![1, 2, 3] 5 (fun _ _ => rfl),
   c6_symmetry_invariant.2.2.1 (fun _ _ => 0) ![1, 2, 3] 5 (fun _ _ => rfl),
   c6_symmetry_invariant.2.2.2.1 cubePoints cubeTriangles 0 (0, 0, 0) rfl,
   c6_symmetry_invariant.2.2.2.2 cubePoints cubeTriangles cubeProps cube_eval⟩

/-- C7: computeTetrahedronVolume returns
((p2 − p1) × (p3 − p2)) · (p3 − p0) / 6, which equals one sixth of the
scalar triple product (p1 − p0) · ((p2 − p0) × (p3 − p0)). -/
theorem c7_volume_formula (p : Fin 4 → V3) :
    computeTetrahedronVolume p =
      dot (cross (p 2 - p 1) (p 3 - p 2)) (p 3 - p 0) / 6 ∧
    computeTetrahedronVolume p =
      dot (p 1 - p 0) (cross (p 2 - p 0) (p 3 - p 0)) / 6 :=
  ⟨rfl, computeTetrahedronVolume_tripleProduct p⟩

/-- C8: the tetrahedron volume is negated by every single swap of a pair
among p1, p2, p3 and unchanged by both cyclic rotations of p1, p2, p3. -/
theorem c8_orientation (p0 p1 p2 p3 : V3) :
    computeTetrahedronVolume ![p0, p2, p1, p3] =
      - computeTetrahedronVolume ![p0, p1, p2, p3] ∧
    computeTetrahedronVolume ![p0, p1, p3, p2] =
      - computeTetrahedronVolume ![p0, p1, p2, p3] ∧
    computeTetrahedronVolume ![p0, p3, p2, p1] =
      - computeTetrahedronVolume ![p0, p1, p2, p3] ∧
    computeTetrahedronVolume ![p0, p2, p3, p1] =
      computeTetrahedronVolume ![p0, p1, p2, p3] ∧
    computeTetrahedronVolume ![p0, p3, p1, p2] =
      computeTetrahedronVolume ![p0, p1, p2, p3] := by
  refine ⟨?_, ?_, ?_, ?_, ?_⟩ <;>
  · simp [computeTetrahedronVolume, dot, cross]
    ring

/-- C9: translating every vertex of a closed, consistently wound mesh of
nonzero total volume leaves the computed volume and (center-of-mass-frame)
inertia tensor unchanged and translates the center of mass by the same
vector. -/
theorem c9_translation_invariance (points : List V3) (tri : List ℕ) (t : V3)
    (r : MassProps) (h : computeMassProperties points tri = some r)
    (hc : IsClosed ((triples tri).map (fetch points)))
    (hV : r.volume ≠ 0) :
    computeMassProperties (points.map fun p => p + t) tri =
      some ⟨r.volume, r.centerOfMass + t, r.inertia⟩ :=
  computeMassProperties_translate points tri t r h hc hV

/-- Witness for C9: the unit right tetrahedron translated by (1, 2, 3). -/
theorem c9_translation_invariance_witness :
    computeMassProperties tetPoints tetTriangles = some tetProps ∧
    IsClosed ((triples tetTriangles).map (fetch tetPoints)) ∧
    tetProps.volume ≠ 0 ∧
    computeMassProperties (tetPoints.map fun p => p + ![1, 2, 3]) tetTriangles =
      some ⟨tetProps.volume, tetProps.centerOfMass + ![1, 2, 3], tetProps.inertia⟩ :=
  ⟨tet_eval, tet_closed, by norm_num [tetProps],
   c9_translation_invariance tetPoints tetTriangles ![1, 2, 3] tetProps
     tet_eval tet_closed (by norm_num [tetProps])⟩

/-- C10: the result depends only on the first 3·(length/3) indices: the
trailing one or two indices of a list whose length is not a multiple of 3
are ignored. -/
theorem c10_truncation (points : List V3) (tri : List ℕ) :
    computeMassProperties points tri =
      computeMassProperties points (tri.take (3 * (tri.length / 3))) :=
  computeMassProperties_take points tri

end MMP
